import Mathlib

/-!
# Verification of the Excel-to-CSV Converter core (`src/src/App.tsx`)

A shallow embedding of the conversion pipeline of the repository
`HenryWorkingson/Excel-to-CSV-Converter`.  The core logic lives in two
functions of `src/src/App.tsx`:

* `handleFolderSelect` (lines 22–44): filters the selected files to those
  whose lowercased name ends in `.xlsx` or `.xls` and clears the error state;
* `handleConvert` (lines 46–101): validates the inputs, then iterates the
  files in order, decoding each (`XLSX.read`), rewriting its relative path
  (replace segment 0 with the trimmed output-folder name, then replace the
  final extension via the regex `\.[^/.]+$`), adding one CSV archive entry
  per sheet (one plain `.csv` entry when the workbook has exactly one sheet,
  else one `_<sheetName>.csv` entry per sheet), emitting
  `Math.round(((i+1)/files.length)*100)` as progress after each file,
  and finally — only when no file failed — finalizing the archive and
  triggering the download.

Strings are modelled by Lean `String` (a structure over `List Char`); the
JavaScript string operations used by the source (`split`, `join`, `trim`,
`toLowerCase`, `endsWith`, and the one regex replacement, including
ECMA-262's `$`-pattern substitution in the replacement string) are defined
here over the character list, following JavaScript semantics.  The
progress computation of line 89 runs in JavaScript numbers, so it is
modelled with exact binary64 rounding over `ℚ` (`fl` below).

External library calls (`XLSX.read`, `XLSX.utils.sheet_to_csv`, `JSZip`,
`saveAs`) are not code of this repository:

* the decoder is a parameter `decode : List Nat → Except String Workbook`
  (raw bytes to a parsed workbook or a parse error), a decoded `Workbook`
  being the ordered list of its sheets, each already serialized to CSV text
  — pairs `(sheetName, csvText)`;
* the archive is modelled by its entry list (the sequence of
  `zip.file(path, content)` calls), and `generateAsync` as the identity on
  that list, per the spec's Archive Builder contract (§4.6);
* the serializer's quoting rule is modelled from the spec (§4.4), see
  `quoteField` below.
-/

/-! ## JavaScript string operations (ASCII-faithful) -/

/-- Whitespace for JS `String.prototype.trim`: ECMA-262 WhiteSpace
(TAB, VT, FF, SP, NBSP, ZWNBSP and the Unicode Space_Separator
characters) together with the LineTerminator characters (LF, CR, LS, PS). -/
def jsWhitespace (c : Char) : Bool :=
  c = ' ' || c = '\t' || c = '\n' || c = '\r' || c = '\x0b' || c = '\x0c' ||
    c = '\u00a0' || c = '\u1680' || ('\u2000' ≤ c && c ≤ '\u200a') ||
    c = '\u2028' || c = '\u2029' || c = '\u202f' || c = '\u205f' ||
    c = '\u3000' || c = '\ufeff'

/-- JS `s.trim()`: strip leading and trailing whitespace. -/
def jsTrim (s : String) : String :=
  ⟨((s.data.dropWhile jsWhitespace).reverse.dropWhile jsWhitespace).reverse⟩

/-- JS `s.toLowerCase()` (ASCII). -/
def jsToLower (s : String) : String := ⟨s.data.map Char.toLower⟩

/-- JS `s.endsWith(suffix)`. -/
def jsEndsWith (s suffix : String) : Bool := suffix.data.isSuffixOf s.data

/-- JS `s.split(sep)` on the character list: every occurrence of the
separator character starts a new segment; the empty string yields `[[]]`. -/
def jsSplitChars (sep : Char) : List Char → List (List Char)
  | [] => [[]]
  | c :: cs =>
    if c = sep then [] :: jsSplitChars sep cs
    else
      match jsSplitChars sep cs with
      | [] => [[c]]
      | seg :: rest => (c :: seg) :: rest

/-- JS `s.split(sep)` for a one-character separator. -/
def jsSplit (sep : Char) (s : String) : List String :=
  (jsSplitChars sep s.data).map String.mk

/-- JS `Array.prototype.join(sep)` (on a list of strings). -/
def joinSep (sep : String) : List String → String
  | [] => ""
  | [s] => s
  | s :: rest => s ++ sep ++ joinSep sep rest

/-- Characters allowed inside the extension matched by the regex
`\.[^/.]+$` of `App.tsx` lines 78/84: anything but `.` and `/`. -/
def extChar (c : Char) : Bool := !(c = '.' || c = '/')

/-- Whether the regex `\.[^/.]+$` matches `s`: the string ends in a dot
followed by one or more characters none of which is a dot or a slash.
Reading the characters from the end: a nonempty run of extension
characters, preceded by a dot. -/
def hasExtension (s : String) : Bool :=
  !(s.data.reverse.takeWhile extChar).isEmpty &&
    (s.data.reverse.dropWhile extChar).head? == some '.'

/-- The characters of `s` strictly before the matched final extension
(meaningful when `hasExtension s = true`). -/
def stemData (s : String) : List Char :=
  ((s.data.reverse.dropWhile extChar).tail).reverse

/-- The characters of the matched final extension itself, dot included
(meaningful when `hasExtension s = true`). -/
def extData (s : String) : List Char :=
  '.' :: (s.data.reverse.takeWhile extChar).reverse

/-- ECMA-262 GetSubstitution for a string replacement and a regex with no
capture groups: `$$` is a literal dollar, `$&` the matched text,
`$`-backtick the portion of the subject before the match, `$'` the portion
after it; any other `$` is literal. -/
def expandRepl (before matched after : List Char) : List Char → List Char
  | [] => []
  | c :: rest =>
    if c = '$' then
      match rest with
      | [] => ['$']
      | d :: rest' =>
        if d = '$' then '$' :: expandRepl before matched after rest'
        else if d = '&' then matched ++ expandRepl before matched after rest'
        else if d = '\x60' then before ++ expandRepl before matched after rest'
        else if d = '\x27' then after ++ expandRepl before matched after rest'
        else '$' :: d :: expandRepl before matched after rest'
    else c :: expandRepl before matched after rest

/-- A replacement string with no dollar sign at all (so GetSubstitution
leaves it unchanged). -/
def dollarFree : List Char → Bool
  | [] => true
  | c :: rest => !(c = '$') && dollarFree rest

/-- JS `s.replace(/\.[^/.]+$/, repl)`: when the regex matches, replace the
final `.extension` (from the last dot to the end) by `repl` after
`$`-pattern substitution (`expandRepl`); otherwise return the string
unchanged.  Here the portion before the match is the stem and the portion
after it is empty, the match being anchored at the end. -/
def replaceExtension (s repl : String) : String :=
  if hasExtension s then
    ⟨stemData s ++ expandRepl (stemData s) (extData s) [] repl.data⟩
  else s

/-! ## Data model -/

/-- One file of the directory selection: its base name
(`file.name`), its slash-separated relative path
(`file.webkitRelativePath`), and its raw bytes (`file.arrayBuffer()`). -/
structure RawFile where
  name : String
  relativePath : String
  bytes : List Nat
  deriving DecidableEq, Repr

/-- A decoded workbook: the ordered sheets, each with its name and its
CSV serialization (`XLSX.utils.sheet_to_csv` applied to the sheet).
Sheet names are unique within a real workbook. -/
abbrev Workbook := List (String × String)

/-- Run outcome surfaced to the user (`error` / `success` state). -/
inductive RunStatus where
  | validationError (msg : String)
  | runError (msg : String)
  | success
  deriving DecidableEq, Repr

/-- Observable outcome of one `handleConvert` invocation: final status, the
progress values emitted by the in-loop `setProgress` calls (in order), the
`zip.file` calls made (in order), the finalized archive
(`generateAsync` result, modelled by its entry list) if one was produced,
whether `saveAs` was triggered, and how many files were handed to the
decoder. -/
structure RunResult where
  status : RunStatus
  progressEvents : List Nat
  entries : List (String × String)
  archive : Option (List (String × String))
  downloaded : Bool
  decodeAttempts : Nat
  deriving DecidableEq, Repr

/-! ## The `handleFolderSelect` filter (App.tsx lines 22–44) -/

/-- The filter predicate of lines 26–29: lowercased name ends in
`.xlsx` or `.xls`. -/
def isExcelName (name : String) : Bool :=
  jsEndsWith (jsToLower name) ".xlsx" || jsEndsWith (jsToLower name) ".xls"

/-- Selection state after `handleFolderSelect`: the retained file list and
the error message (cleared to `none` at line 32).  (The function also
resets progress/success and suggests a default output folder name; those
parts are not needed by any claim.) -/
structure SelectState where
  files : List RawFile
  error : Option String
  deriving Repr

/-- `handleFolderSelect` (lines 22–44): keep exactly the files passing
`isExcelName`; clear the error. -/
def handleFolderSelect (selected : List RawFile) : SelectState :=
  ⟨selected.filter (fun f => isExcelName f.name), none⟩

/-! ## The conversion run (`handleConvert`, App.tsx lines 46–101) -/

/-- Lines 70–73: split the relative path on `/`, overwrite segment 0 with
the (already trimmed) output root, rejoin.  JS `split` never returns an
empty array, so the assignment `pathParts[0] = root` yields
`root :: tail`. -/
def newPathBase (root path : String) : String :=
  joinSep "/" (root :: (jsSplit '/' path).tail)

/-- Lines 75–87: the archive entries contributed by one decoded file.
Exactly one sheet → one entry at the path with extension replaced by
`.csv`; otherwise one entry per sheet at the path with extension replaced
by `_<sheetName>.csv`. -/
def fileEntries (root path : String) (wb : Workbook) : List (String × String) :=
  let base := newPathBase root path
  match wb with
  | [(_, csv)] => [(replaceExtension base ".csv", csv)]
  | _ => wb.map (fun p => (replaceExtension base ("_" ++ p.1 ++ ".csv"), p.2))

/-- Round a rational to the nearest integer, ties to even (the rounding
used inside binary64 arithmetic). -/
def roundHalfEven (q : ℚ) : ℤ :=
  if q - ⌊q⌋ < 1 / 2 then ⌊q⌋
  else if (1 : ℚ) / 2 < q - ⌊q⌋ then ⌊q⌋ + 1
  else if 2 ∣ ⌊q⌋ then ⌊q⌋ else ⌊q⌋ + 1

/-- Scaling exponent of the binary64 value nearest to a positive `q`:
`⌊log₂ q⌋ - 52` for normal values, clamped at `-1074` for subnormals. -/
def binExp (q : ℚ) : ℤ := max (Int.log 2 q - 52) (-1074)

/-- The binary64 (IEEE 754 double precision, round to nearest, ties to
even) value nearest to `q`, as an exact rational; covers normal and
subnormal doubles (overflow to infinity, which the progress computation
never reaches since all its intermediates lie in `[0, 100]`, is not
modelled). -/
def fl (q : ℚ) : ℚ :=
  if q = 0 then 0
  else if 0 < q then (roundHalfEven (q / 2 ^ binExp q) : ℚ) * 2 ^ binExp q
  else -((roundHalfEven (-q / 2 ^ binExp (-q)) : ℚ) * 2 ^ binExp (-q))

/-- Line 89: `Math.round(((k)/n)*100)` with the division and the
multiplication performed in binary64, and `Math.round` as ECMA-262's
nearest-integer, ties towards `+∞` (`⌊x + 1/2⌋`). -/
def roundPct (k n : Nat) : Nat :=
  (⌊fl (fl ((k : ℚ) / (n : ℚ)) * 100) + 1 / 2⌋).toNat

/-- Accumulated observations of the `for` loop of lines 65–90. -/
structure LoopOut where
  entries : List (String × String)
  progress : List Nat
  err : Option String
  decoded : Nat
  deriving DecidableEq, Repr

/-- The `for` loop (lines 65–90), processing the files from index `i`:
decode; on failure stop with the error (the `try` block aborts); on
success add this file's entries, emit this file's progress value, and
continue. -/
def runLoop (decode : List Nat → Except String Workbook) (root : String)
    (total : Nat) : List RawFile → Nat → LoopOut
  | [], _ => ⟨[], [], none, 0⟩
  | f :: rest, i =>
    match decode f.bytes with
    | .error e => ⟨[], [], some e, 1⟩
    | .ok wb =>
      let r := runLoop decode root total rest (i + 1)
      ⟨fileEntries root f.relativePath wb ++ r.entries,
        roundPct (i + 1) total :: r.progress, r.err, r.decoded + 1⟩

/-- `handleConvert` (lines 46–101).  Validation first (empty selection,
then blank root name) — neither decodes anything nor emits progress.
Otherwise run the loop; if it ended in an error, report it (line 97's
`err.message || fallback`) and finalize nothing; if not, finalize the
archive and download it. -/
def handleConvert (decode : List Nat → Except String Workbook)
    (files : List RawFile) (outputFolderName : String) : RunResult :=
  if files.length = 0 then
    ⟨.validationError "Please select a folder containing Excel files first.",
      [], [], none, false, 0⟩
  else if jsTrim outputFolderName = "" then
    ⟨.validationError "Please provide an output folder name.",
      [], [], none, false, 0⟩
  else
    let r := runLoop decode (jsTrim outputFolderName) files.length files 0
    match r.err with
    | some e =>
      ⟨.runError (if e = "" then "An error occurred during conversion." else e),
        r.progress, r.entries, none, false, r.decoded⟩
    | none => ⟨.success, r.progress, r.entries, some r.entries, true, r.decoded⟩

/-- The archive entries contributed by a list of files, in order, skipping
files whose decode fails (used to describe the entry accumulation of
`runLoop` on its error-free prefix). -/
def entriesOf (decode : List Nat → Except String Workbook) (root : String) :
    List RawFile → List (String × String)
  | [] => []
  | f :: rest =>
    (match decode f.bytes with
      | .ok wb => fileEntries root f.relativePath wb
      | .error _ => []) ++ entriesOf decode root rest

/-! ## The Sheet Serializer quoting rule -/

/-- Modelled from the spec: §4.4's quoting condition for the Sheet
Serializer (`XLSX.utils.sheet_to_csv` is library code, not in `src/`) — a
cell's text needs quoting iff it contains a comma, a double quote, or a
line-break character. -/
def needsQuote (s : String) : Bool :=
  s.data.any (fun c => c = ',' || c = '"' || c = '\n' || c = '\r')

/-- Modelled from the spec: §4.4's escaping — internal double quotes are
doubled. -/
def escapeQuotes (s : String) : String :=
  ⟨s.data.flatMap (fun c => if c = '"' then ['"', '"'] else [c])⟩

/-- Modelled from the spec: §4.4's field rendering — wrap in double quotes
(doubling internal ones) exactly when `needsQuote`, else leave the text
unchanged. -/
def quoteField (s : String) : String :=
  if needsQuote s then "\"" ++ escapeQuotes s ++ "\"" else s

/-! ## Helper lemmas: strings and path rewriting -/

theorem strAppend_assoc (a b c : String) : a ++ b ++ c = a ++ (b ++ c) :=
  String.ext (by simp)

theorem reverse_data_append_xlsx (X : String) :
    (X ++ ".xlsx").data.reverse = 'x' :: 's' :: 'l' :: 'x' :: '.' :: X.data.reverse := by
  rw [String.data_append, show (".xlsx" : String).data = ['.', 'x', 'l', 's', 'x'] from rfl]
  simp

theorem hasExtension_append_xlsx (X : String) :
    hasExtension (X ++ ".xlsx") = true := by
  simp [hasExtension, reverse_data_append_xlsx, extChar]

theorem stemData_append_xlsx (X : String) : stemData (X ++ ".xlsx") = X.data := by
  simp [stemData, reverse_data_append_xlsx, extChar]

/-- A replacement string without `$` passes through GetSubstitution
unchanged. -/
theorem expandRepl_of_dollarFree (before matched after : List Char) :
    ∀ cs : List Char, dollarFree cs = true →
      expandRepl before matched after cs = cs := by
  intro cs
  induction cs with
  | nil =>
    intro _
    rfl
  | cons c rest ih =>
    intro hdf
    simp only [dollarFree, Bool.and_eq_true, Bool.not_eq_true',
      decide_eq_false_iff_not] at hdf
    rw [expandRepl.eq_def]
    simp only [if_neg hdf.1]
    rw [ih hdf.2]

theorem dollarFree_append (l₁ l₂ : List Char) :
    dollarFree (l₁ ++ l₂) = (dollarFree l₁ && dollarFree l₂) := by
  induction l₁ with
  | nil => simp [dollarFree]
  | cons c rest ih => simp [dollarFree, ih, Bool.and_assoc]

theorem replaceExtension_of_hasExtension (s repl : String)
    (h : hasExtension s = true) :
    replaceExtension s repl =
      ⟨stemData s ++ expandRepl (stemData s) (extData s) [] repl.data⟩ := by
  rw [replaceExtension, h, if_pos rfl]

theorem replaceExtension_append_xlsx (X repl : String)
    (hr : dollarFree repl.data = true) :
    replaceExtension (X ++ ".xlsx") repl = X ++ repl := by
  rw [replaceExtension, hasExtension_append_xlsx, if_pos rfl,
    stemData_append_xlsx, expandRepl_of_dollarFree _ _ _ _ hr]
  exact String.ext (by simp)

/-- Under `hasExtension`, the rewritten string determines a `$`-free
replacement: the regex substitution is injective on `$`-free replacement
strings. -/
theorem replaceExtension_inj (s : String) (h : hasExtension s = true)
    (r₁ r₂ : String) (h₁ : dollarFree r₁.data = true)
    (h₂ : dollarFree r₂.data = true)
    (heq : replaceExtension s r₁ = replaceExtension s r₂) :
    r₁ = r₂ := by
  rw [replaceExtension_of_hasExtension s r₁ h,
    replaceExtension_of_hasExtension s r₂ h,
    expandRepl_of_dollarFree _ _ _ _ h₁, expandRepl_of_dollarFree _ _ _ _ h₂]
    at heq
  exact String.ext (List.append_cancel_left (congrArg String.data heq))

/-- `joinSep` on a cons with a nonempty tail. -/
theorem joinSep_cons (sep : String) (s : String) (t : List String) (h : t ≠ []) :
    joinSep sep (s :: t) = s ++ sep ++ joinSep sep t := by
  cases t with
  | nil => exact absurd rfl h
  | cons u us => rfl

/-! ## Helper lemmas: binary64 rounding and the progress computation -/

theorem int_log_eq {q : ℚ} {e : ℤ} (hq : 0 < q)
    (h1 : (2 : ℚ) ^ e ≤ q) (h2 : q < (2 : ℚ) ^ (e + 1)) : Int.log 2 q = e := by
  have hle : e ≤ Int.log 2 q := by
    rw [← Int.zpow_le_iff_le_log (by norm_num) hq]
    exact_mod_cast h1
  have hlt : Int.log 2 q < e + 1 := by
    rw [← Int.lt_zpow_iff_log_lt (by norm_num) hq]
    exact_mod_cast h2
  omega

/-- Evaluate `fl` when the scaled significand rounds down
(fraction < 1/2). -/
theorem fl_eq_of_lt_half {q : ℚ} {e m : ℤ} (hq : 0 < q)
    (hlog : Int.log 2 q = e) (he : -1022 ≤ e)
    (hfloor : ⌊q / 2 ^ (e - 52)⌋ = m)
    (hfrac : q / 2 ^ (e - 52) - m < 1 / 2) :
    fl q = (m : ℚ) * 2 ^ (e - 52) := by
  have hexp : binExp q = e - 52 := by
    rw [binExp, hlog]
    omega
  rw [fl, if_neg (by positivity), if_pos hq, hexp, roundHalfEven, hfloor,
    if_pos hfrac]

/-- Evaluate `fl` when the scaled significand rounds up
(fraction > 1/2). -/
theorem fl_eq_of_half_lt {q : ℚ} {e m : ℤ} (hq : 0 < q)
    (hlog : Int.log 2 q = e) (he : -1022 ≤ e)
    (hfloor : ⌊q / 2 ^ (e - 52)⌋ = m)
    (hfrac : 1 / 2 < q / 2 ^ (e - 52) - m) :
    fl q = (m + 1 : ℚ) * 2 ^ (e - 52) := by
  have hexp : binExp q = e - 52 := by
    rw [binExp, hlog]
    omega
  rw [fl, if_neg (by positivity), if_pos hq, hexp, roundHalfEven, hfloor,
    if_neg (by linarith), if_pos hfrac]
  push_cast
  ring

theorem fl_zero : fl 0 = 0 := by
  rw [fl, if_pos rfl]

theorem fl_of_pos {q : ℚ} (hq : 0 < q) :
    fl q = (roundHalfEven (q / 2 ^ binExp q) : ℚ) * 2 ^ binExp q := by
  rw [fl, if_neg (by positivity), if_pos hq]

theorem roundHalfEven_ge_floor (q : ℚ) : ⌊q⌋ ≤ roundHalfEven q := by
  unfold roundHalfEven
  split_ifs <;> omega

theorem roundHalfEven_le_floor_add_one (q : ℚ) : roundHalfEven q ≤ ⌊q⌋ + 1 := by
  unfold roundHalfEven
  split_ifs <;> omega

theorem roundHalfEven_mono {q q' : ℚ} (h : q ≤ q') :
    roundHalfEven q ≤ roundHalfEven q' := by
  rcases lt_or_eq_of_le (Int.floor_mono h) with hf | hf
  · calc roundHalfEven q ≤ ⌊q⌋ + 1 := roundHalfEven_le_floor_add_one q
      _ ≤ ⌊q'⌋ := by omega
      _ ≤ roundHalfEven q' := roundHalfEven_ge_floor q'
  · have hfr : q - ⌊q⌋ ≤ q' - ⌊q'⌋ := by
      rw [← hf]
      linarith
    unfold roundHalfEven
    rw [← hf]
    split_ifs <;> first | omega | linarith

theorem le_roundHalfEven_of_cast_le {q : ℚ} {N : ℤ} (h : (N : ℚ) ≤ q) :
    N ≤ roundHalfEven q :=
  le_trans (Int.le_floor.2 h) (roundHalfEven_ge_floor q)

theorem roundHalfEven_le_of_lt_cast {q : ℚ} {N : ℤ} (h : q < N) :
    roundHalfEven q ≤ N :=
  le_trans (roundHalfEven_le_floor_add_one q) (by
    have h2 : ⌊q⌋ < N := Int.floor_lt.2 h
    omega)

theorem roundHalfEven_nonneg {q : ℚ} (h : 0 ≤ q) : 0 ≤ roundHalfEven q :=
  le_roundHalfEven_of_cast_le (by exact_mod_cast h)

theorem fl_nonneg {q : ℚ} (h : 0 ≤ q) : 0 ≤ fl q := by
  rcases eq_or_lt_of_le h with h0 | h0
  · rw [← h0, fl_zero]
  · rw [fl_of_pos h0]
    have h1 : (0 : ℚ) < 2 ^ binExp q := by positivity
    have h2 : 0 ≤ roundHalfEven (q / 2 ^ binExp q) :=
      roundHalfEven_nonneg (by positivity)
    positivity

theorem binExp_mono {q q' : ℚ} (hq : 0 < q) (h : q ≤ q') :
    binExp q ≤ binExp q' := by
  unfold binExp
  have := Int.log_mono_right (b := 2) hq h
  omega

/-- When `q < 2^E` and the scaling exponent is below `E`, so is `fl q`. -/
theorem fl_le_zpow {q : ℚ} (hq : 0 < q) {E : ℤ} (hlt : q < 2 ^ E)
    (hE : binExp q < E) : fl q ≤ 2 ^ E := by
  set s := binExp q with hs
  have h2s : (0 : ℚ) < 2 ^ s := by positivity
  have hn : (0 : ℤ) ≤ E - s := by omega
  have hcast : ((2 ^ (E - s).toNat : ℤ) : ℚ) = 2 ^ (E - s) := by
    push_cast
    rw [← zpow_natCast, Int.toNat_of_nonneg hn]
  have hdiv : q / 2 ^ s < ((2 ^ (E - s).toNat : ℤ) : ℚ) := by
    rw [hcast, div_lt_iff₀ h2s, ← zpow_add₀ (two_ne_zero)]
    have heq : E - s + s = E := by omega
    rw [heq]
    exact hlt
  have hrle := roundHalfEven_le_of_lt_cast hdiv
  rw [fl_of_pos hq, ← hs]
  calc (roundHalfEven (q / 2 ^ s) : ℚ) * 2 ^ s
      ≤ ((2 ^ (E - s).toNat : ℤ) : ℚ) * 2 ^ s := by
        apply mul_le_mul_of_nonneg_right _ h2s.le
        exact_mod_cast hrle
    _ = 2 ^ E := by
        rw [hcast, ← zpow_add₀ (two_ne_zero)]
        congr 1
        omega

/-- When `2^E ≤ q` and the scaling exponent is at most `E`,
`2^E ≤ fl q`. -/
theorem zpow_le_fl {q : ℚ} (hq : 0 < q) {E : ℤ} (hle : (2 : ℚ) ^ E ≤ q)
    (hE : binExp q ≤ E) : (2 : ℚ) ^ E ≤ fl q := by
  set s := binExp q with hs
  have h2s : (0 : ℚ) < 2 ^ s := by positivity
  have hn : (0 : ℤ) ≤ E - s := by omega
  have hcast : ((2 ^ (E - s).toNat : ℤ) : ℚ) = 2 ^ (E - s) := by
    push_cast
    rw [← zpow_natCast, Int.toNat_of_nonneg hn]
  have hdiv : ((2 ^ (E - s).toNat : ℤ) : ℚ) ≤ q / 2 ^ s := by
    rw [hcast, le_div_iff₀ h2s, ← zpow_add₀ (two_ne_zero)]
    have heq : E - s + s = E := by omega
    rw [heq]
    exact hle
  have hrle := le_roundHalfEven_of_cast_le hdiv
  rw [fl_of_pos hq, ← hs]
  calc (2 : ℚ) ^ E = ((2 ^ (E - s).toNat : ℤ) : ℚ) * 2 ^ s := by
        rw [hcast, ← zpow_add₀ (two_ne_zero)]
        congr 1
        omega
    _ ≤ (roundHalfEven (q / 2 ^ s) : ℚ) * 2 ^ s := by
        apply mul_le_mul_of_nonneg_right _ h2s.le
        exact_mod_cast hrle

/-- Monotonicity of binary64 rounding on nonnegative inputs. -/
theorem fl_mono {q q' : ℚ} (hq : 0 ≤ q) (h : q ≤ q') : fl q ≤ fl q' := by
  rcases eq_or_lt_of_le hq with h0 | h0
  · rw [← h0, fl_zero]
    exact fl_nonneg (le_trans hq h)
  have h0' : 0 < q' := lt_of_lt_of_le h0 h
  rcases eq_or_lt_of_le (binExp_mono h0 h) with hs | hs
  · rw [fl_of_pos h0, fl_of_pos h0', ← hs]
    apply mul_le_mul_of_nonneg_right _ (by positivity)
    have hd : q / 2 ^ binExp q ≤ q' / 2 ^ binExp q := by gcongr
    exact_mod_cast roundHalfEven_mono hd
  · -- binExp q < binExp q'; go through the power 2 ^ (Int.log 2 q')
    have hsE : binExp q' = Int.log 2 q' - 52 := by
      unfold binExp at hs ⊢
      omega
    have hlogs : Int.log 2 q < Int.log 2 q' := by
      by_contra hc
      push_neg at hc
      have hmono := Int.log_mono_right (b := 2) h0 h
      have hEE : Int.log 2 q = Int.log 2 q' := le_antisymm hmono hc
      unfold binExp at hs
      rw [hEE] at hs
      omega
    have hqlt : q < (2 : ℚ) ^ Int.log 2 q' := by
      have h1 : q < ((2 : ℕ) : ℚ) ^ (Int.log 2 q + 1) :=
        Int.lt_zpow_succ_log_self (by norm_num) q
      have h2 : ((2 : ℕ) : ℚ) = (2 : ℚ) := by norm_num
      rw [h2] at h1
      exact lt_of_lt_of_le h1 (zpow_le_zpow_right₀ one_le_two (by omega))
    have hq'ge : (2 : ℚ) ^ Int.log 2 q' ≤ q' := by
      have h1 : ((2 : ℕ) : ℚ) ^ Int.log 2 q' ≤ q' :=
        Int.zpow_log_le_self (by norm_num) h0'
      have h2 : ((2 : ℕ) : ℚ) = (2 : ℚ) := by norm_num
      rw [h2] at h1
      exact h1
    calc fl q ≤ 2 ^ Int.log 2 q' := fl_le_zpow h0 hqlt (by omega)
      _ ≤ fl q' := zpow_le_fl h0' hq'ge (by omega)

theorem fl_one : fl 1 = 1 := by
  have h := fl_eq_of_lt_half (q := 1) (e := 0) (m := 4503599627370496)
    one_pos (int_log_eq one_pos (by norm_num) (by norm_num)) (by norm_num)
    (by
      rw [Int.floor_eq_iff]
      constructor <;> norm_num)
    (by norm_num)
  rw [h]
  norm_num

theorem fl_hundred : fl 100 = 100 := by
  have h := fl_eq_of_lt_half (q := 100) (e := 6) (m := 7036874417766400)
    (by norm_num) (int_log_eq (by norm_num) (by norm_num) (by norm_num))
    (by norm_num)
    (by
      rw [Int.floor_eq_iff]
      constructor <;> norm_num)
    (by norm_num)
  rw [h]
  norm_num

theorem roundPct_mono (k k' n : Nat) (h : k ≤ k') :
    roundPct k n ≤ roundPct k' n := by
  unfold roundPct
  rcases Nat.eq_zero_or_pos n with hn | hn
  · subst hn
    simp
  have hd : ((k : ℚ) / n) ≤ ((k' : ℚ) / n) := by
    gcongr
  have h1 : fl ((k : ℚ) / n) ≤ fl ((k' : ℚ) / n) := fl_mono (by positivity) hd
  have h2 : fl ((k : ℚ) / n) * 100 ≤ fl ((k' : ℚ) / n) * 100 := by linarith
  have h3 : fl (fl ((k : ℚ) / n) * 100) ≤ fl (fl ((k' : ℚ) / n) * 100) :=
    fl_mono (mul_nonneg (fl_nonneg (by positivity)) (by norm_num)) h2
  have h4 := Int.floor_mono (add_le_add_right h3 (1 / 2))
  omega

theorem roundPct_total (n : Nat) (h : 0 < n) : roundPct n n = 100 := by
  unfold roundPct
  rw [div_self (by exact_mod_cast h.ne' : (n : ℚ) ≠ 0), fl_one, one_mul,
    fl_hundred, show ⌊(100 : ℚ) + 1 / 2⌋ = 100 from by
      rw [Int.floor_eq_iff]
      constructor <;> norm_num]
  rfl

/-- The first emitted value of a 201-file run: the double nearest `1/201`
is `5735927883616154·2⁻⁶⁰`, times 100 rounds to `8962387318150241·2⁻⁵⁴ ≈
0.4975`, and `Math.round` of that is `0`. -/
theorem roundPct_one_201 : roundPct 1 201 = 0 := by
  unfold roundPct
  have hd1 : fl ((1 : ℚ) / 201) = 5735927883616154 * 2 ^ ((-8 : ℤ) - 52) := by
    have h := fl_eq_of_lt_half (q := (1 : ℚ) / 201) (e := -8)
      (m := 5735927883616154) (by norm_num)
      (int_log_eq (by norm_num) (by norm_num) (by norm_num)) (by norm_num)
      (by
        rw [Int.floor_eq_iff]
        constructor <;> norm_num)
      (by norm_num)
    rw [h]
    norm_num
  have hmul : fl ((1 : ℚ) / 201) * 100 =
      573592788361615400 * 2 ^ ((-8 : ℤ) - 52) := by
    rw [hd1]
    ring
  have hd2 : fl (fl ((1 : ℚ) / 201) * 100) =
      8962387318150241 * 2 ^ ((-2 : ℤ) - 52) := by
    rw [hmul]
    have h := fl_eq_of_half_lt
      (q := (573592788361615400 : ℚ) * 2 ^ ((-8 : ℤ) - 52))
      (e := -2) (m := 8962387318150240) (by positivity)
      (int_log_eq (by positivity) (by norm_num) (by norm_num)) (by norm_num)
      (by
        rw [Int.floor_eq_iff]
        constructor <;> norm_num)
      (by norm_num)
    rw [h]
    norm_num
  rw [show ((1 : Nat) : ℚ) = 1 from by norm_num,
    show ((201 : Nat) : ℚ) = 201 from by norm_num, hd2,
    show ⌊(8962387318150241 : ℚ) * 2 ^ ((-2 : ℤ) - 52) + 1 / 2⌋ = 0 from by
      rw [Int.floor_eq_iff]
      constructor <;> norm_num]
  rfl

/-- Progress after file 23 of 40: the double product is
`8092405580431359·2⁻⁴⁷ = 57.49999999999999…`, so the program emits 57,
although exact rounding of `100·23/40 = 57.5` gives 58. -/
theorem roundPct_23_40 : roundPct 23 40 = 57 := by
  unfold roundPct
  have hd1 : fl ((23 : ℚ) / 40) = 5179139571476070 * 2 ^ ((-1 : ℤ) - 52) := by
    have h := fl_eq_of_lt_half (q := (23 : ℚ) / 40) (e := -1)
      (m := 5179139571476070) (by norm_num)
      (int_log_eq (by norm_num) (by norm_num) (by norm_num)) (by norm_num)
      (by
        rw [Int.floor_eq_iff]
        constructor <;> norm_num)
      (by norm_num)
    rw [h]
    norm_num
  have hmul : fl ((23 : ℚ) / 40) * 100 =
      517913957147607000 * 2 ^ ((-1 : ℤ) - 52) := by
    rw [hd1]
    ring
  have hd2 : fl (fl ((23 : ℚ) / 40) * 100) =
      8092405580431359 * 2 ^ ((5 : ℤ) - 52) := by
    rw [hmul]
    have h := fl_eq_of_lt_half
      (q := (517913957147607000 : ℚ) * 2 ^ ((-1 : ℤ) - 52))
      (e := 5) (m := 8092405580431359) (by positivity)
      (int_log_eq (by positivity) (by norm_num) (by norm_num)) (by norm_num)
      (by
        rw [Int.floor_eq_iff]
        constructor <;> norm_num)
      (by norm_num)
    rw [h]
    norm_num
  rw [show ((23 : Nat) : ℚ) = 23 from by norm_num,
    show ((40 : Nat) : ℚ) = 40 from by norm_num, hd2,
    show ⌊(8092405580431359 : ℚ) * 2 ^ ((5 : ℤ) - 52) + 1 / 2⌋ = 57 from by
      rw [Int.floor_eq_iff]
      constructor <;> norm_num]
  rfl

/-! ## Helper lemmas: the conversion loop -/

theorem runLoop_nil (decode : List Nat → Except String Workbook) (root : String)
    (total i : Nat) : runLoop decode root total [] i = ⟨[], [], none, 0⟩ := rfl

theorem runLoop_cons_ok (decode : List Nat → Except String Workbook)
    (root : String) (total i : Nat) (f : RawFile) (rest : List RawFile)
    (wb : Workbook) (hw : decode f.bytes = Except.ok wb) :
    runLoop decode root total (f :: rest) i =
      ⟨fileEntries root f.relativePath wb ++ (runLoop decode root total rest (i + 1)).entries,
        roundPct (i + 1) total :: (runLoop decode root total rest (i + 1)).progress,
        (runLoop decode root total rest (i + 1)).err,
        (runLoop decode root total rest (i + 1)).decoded + 1⟩ := by
  simp [runLoop, hw]

theorem runLoop_cons_err (decode : List Nat → Except String Workbook)
    (root : String) (total i : Nat) (f : RawFile) (rest : List RawFile)
    (e : String) (hw : decode f.bytes = Except.error e) :
    runLoop decode root total (f :: rest) i = ⟨[], [], some e, 1⟩ := by
  simp [runLoop, hw]

/-- Processing `pre ++ rest` where every file of `pre` decodes: the loop
contributes `pre`'s entries and one progress value per file of `pre`, then
continues into `rest` at the shifted index. -/
theorem runLoop_append_ok (decode : List Nat → Except String Workbook)
    (root : String) (total : Nat) (pre rest : List RawFile) (i : Nat)
    (hpre : ∀ f ∈ pre, ∃ w, decode f.bytes = Except.ok w) :
    runLoop decode root total (pre ++ rest) i =
      ⟨entriesOf decode root pre ++ (runLoop decode root total rest (i + pre.length)).entries,
        (List.range pre.length).map (fun j => roundPct (i + 1 + j) total) ++
          (runLoop decode root total rest (i + pre.length)).progress,
        (runLoop decode root total rest (i + pre.length)).err,
        pre.length + (runLoop decode root total rest (i + pre.length)).decoded⟩ := by
  induction pre generalizing i with
  | nil =>
    rcases h : runLoop decode root total rest (i + 0) with ⟨e, p, er, d⟩
    simp [entriesOf, h]
  | cons f pre' ih =>
    obtain ⟨w, hw⟩ := hpre f (by simp)
    rw [List.cons_append, runLoop_cons_ok decode root total i f (pre' ++ rest) w hw,
      ih (i + 1) (fun g hg => hpre g (by simp [hg]))]
    have hidx : i + 1 + pre'.length = i + (f :: pre').length := by
      simp only [List.length_cons]
      omega
    rw [hidx]
    simp only [LoopOut.mk.injEq]
    refine ⟨?_, ?_, ?_, ?_⟩
    rotate_left 2
    · exact trivial
    · simp only [List.length_cons]
      generalize (runLoop decode root total rest (i + (pre'.length + 1))).decoded = d
      omega
    · simp [entriesOf, hw]
    rw [List.length_cons, List.range_succ_eq_map, List.map_cons, List.map_map,
      List.cons_append]
    congr 1
    congr 1
    apply List.map_congr_left
    intro j _
    simp only [Function.comp_apply, Nat.succ_eq_add_one]
    congr 1
    omega

theorem entriesOf_append (decode : List Nat → Except String Workbook)
    (root : String) (l₁ l₂ : List RawFile) :
    entriesOf decode root (l₁ ++ l₂) =
      entriesOf decode root l₁ ++ entriesOf decode root l₂ := by
  induction l₁ with
  | nil => simp [entriesOf]
  | cons f rest ih => simp [entriesOf, ih]

/-- A loop over files that all decode: no error, `entriesOf` as entries,
one progress value per file, every file decoded. -/
theorem runLoop_all_ok (decode : List Nat → Except String Workbook)
    (root : String) (total : Nat) (fs : List RawFile) (i : Nat)
    (h : ∀ f ∈ fs, ∃ w, decode f.bytes = Except.ok w) :
    runLoop decode root total fs i =
      ⟨entriesOf decode root fs,
        (List.range fs.length).map (fun j => roundPct (i + 1 + j) total),
        none, fs.length⟩ := by
  have h2 := runLoop_append_ok decode root total fs [] i h
  rw [List.append_nil] at h2
  rw [h2, runLoop_nil]
  simp

/-- A loop whose first decode failure is at position `pre.length`: entries
and progress stop with `pre`, the error is recorded, and exactly
`pre.length + 1` files were handed to the decoder. -/
theorem runLoop_first_err (decode : List Nat → Except String Workbook)
    (root : String) (total : Nat) (pre : List RawFile) (bad : RawFile)
    (post : List RawFile) (i : Nat) (e : String)
    (hpre : ∀ f ∈ pre, ∃ w, decode f.bytes = Except.ok w)
    (hbad : decode bad.bytes = Except.error e) :
    runLoop decode root total (pre ++ bad :: post) i =
      ⟨entriesOf decode root pre,
        (List.range pre.length).map (fun j => roundPct (i + 1 + j) total),
        some e, pre.length + 1⟩ := by
  rw [runLoop_append_ok decode root total pre (bad :: post) i hpre,
    runLoop_cons_err decode root total (i + pre.length) bad post e hbad]
  simp

theorem handleConvert_loop_ok (decode : List Nat → Except String Workbook)
    (files : List RawFile) (root : String)
    (hne : files ≠ []) (hroot : ¬ jsTrim root = "")
    (herr : (runLoop decode (jsTrim root) files.length files 0).err = none) :
    handleConvert decode files root =
      ⟨.success,
        (runLoop decode (jsTrim root) files.length files 0).progress,
        (runLoop decode (jsTrim root) files.length files 0).entries,
        some ((runLoop decode (jsTrim root) files.length files 0).entries),
        true,
        (runLoop decode (jsTrim root) files.length files 0).decoded⟩ := by
  have hlen : ¬ files.length = 0 := by
    simp only [List.length_eq_zero]
    exact hne
  simp only [handleConvert, if_neg hlen, if_neg hroot, herr]

theorem handleConvert_loop_err (decode : List Nat → Except String Workbook)
    (files : List RawFile) (root : String) (e : String)
    (hne : files ≠ []) (hroot : ¬ jsTrim root = "")
    (herr : (runLoop decode (jsTrim root) files.length files 0).err = some e) :
    handleConvert decode files root =
      ⟨.runError (if e = "" then "An error occurred during conversion." else e),
        (runLoop decode (jsTrim root) files.length files 0).progress,
        (runLoop decode (jsTrim root) files.length files 0).entries,
        none, false,
        (runLoop decode (jsTrim root) files.length files 0).decoded⟩ := by
  have hlen : ¬ files.length = 0 := by
    simp only [List.length_eq_zero]
    exact hne
  simp only [handleConvert, if_neg hlen, if_neg hroot, herr]

theorem fileEntries_nil (root path : String) : fileEntries root path [] = [] := rfl

theorem fileEntries_single (root path sn csv : String) :
    fileEntries root path [(sn, csv)] =
      [(replaceExtension (newPathBase root path) ".csv", csv)] := rfl

theorem fileEntries_multi (root path : String) (wb : Workbook)
    (h : wb.length ≠ 1) :
    fileEntries root path wb =
      wb.map (fun p =>
        (replaceExtension (newPathBase root path) ("_" ++ p.1 ++ ".csv"), p.2)) := by
  match wb with
  | [] => rfl
  | [(a, b)] => simp at h
  | x :: y :: rest => rfl

/-! ## Helper lemmas: quoting -/

/-- Doubling quotes never shortens the text. -/
theorem length_le_escapeQuotes (cs : List Char) :
    cs.length ≤ (cs.flatMap (fun c => if c = '"' then ['"', '"'] else [c])).length := by
  induction cs with
  | nil => simp
  | cons c rest ih =>
    rw [List.flatMap_cons, List.length_append, List.length_cons]
    by_cases hc : c = '"'
    · rw [if_pos hc]
      simp only [List.length_cons, List.length_nil]
      omega
    · rw [if_neg hc]
      simp only [List.length_cons, List.length_nil]
      omega

/-! ## Claim theorems -/

/-- C5: for every invocation of the convert operation with an empty file
list, or with an output root name that is empty after trimming, the run
never enters the Running state: a validation error is reported, no file is
decoded, no progress is emitted, and no archive is built or downloaded. -/
theorem c5_validation_blocks_run (decode : List Nat → Except String Workbook)
    (files : List RawFile) (root : String)
    (h : files = [] ∨ jsTrim root = "") :
    (∃ m, (handleConvert decode files root).status = RunStatus.validationError m) ∧
    (handleConvert decode files root).decodeAttempts = 0 ∧
    (handleConvert decode files root).progressEvents = [] ∧
    (handleConvert decode files root).entries = [] ∧
    (handleConvert decode files root).archive = none ∧
    (handleConvert decode files root).downloaded = false := by
  rcases h with h | h
  · subst h
    exact ⟨⟨_, rfl⟩, rfl, rfl, rfl, rfl, rfl⟩
  · cases files with
    | nil => exact ⟨⟨_, rfl⟩, rfl, rfl, rfl, rfl, rfl⟩
    | cons f rest =>
      have hc : handleConvert decode (f :: rest) root =
          ⟨.validationError "Please provide an output folder name.",
            [], [], none, false, 0⟩ := by
        simp only [handleConvert, if_neg (by simp : ¬ (f :: rest).length = 0),
          if_pos h]
      rw [hc]
      exact ⟨⟨_, rfl⟩, rfl, rfl, rfl, rfl, rfl⟩

/-- Witness for C5 at a concrete input: the empty selection with root
`out`. -/
theorem c5_validation_blocks_run_witness :
    (∃ m, (handleConvert (fun _ => Except.ok []) [] "out").status =
      RunStatus.validationError m) ∧
    (handleConvert (fun _ => Except.ok []) [] "out").decodeAttempts = 0 ∧
    (handleConvert (fun _ => Except.ok []) [] "out").progressEvents = [] ∧
    (handleConvert (fun _ => Except.ok []) [] "out").entries = [] ∧
    (handleConvert (fun _ => Except.ok []) [] "out").archive = none ∧
    (handleConvert (fun _ => Except.ok []) [] "out").downloaded = false :=
  c5_validation_blocks_run (fun _ => Except.ok []) [] "out" (Or.inl rfl)

/-- C6: a file of the selection is kept by the discovery filter iff its
name, lowercased, ends with `.xlsx` or `.xls`; every other file is
silently excluded — the selection handler reports no error. -/
theorem c6_discovery_filter (selected : List RawFile) (f : RawFile) :
    (f ∈ (handleFolderSelect selected).files ↔
      f ∈ selected ∧
        (jsEndsWith (jsToLower f.name) ".xlsx" = true ∨
          jsEndsWith (jsToLower f.name) ".xls" = true)) ∧
    (handleFolderSelect selected).error = none := by
  constructor
  · simp [handleFolderSelect, List.mem_filter, isExcelName]
  · rfl

/-- C8: the run is a deterministic function of its inputs — the same
decoder, file list (paths and bytes, in order) and root name yield the
same run result, in particular byte-identical finalized archives. -/
theorem c8_deterministic (decode : List Nat → Except String Workbook)
    (files₁ files₂ : List RawFile) (root₁ root₂ : String)
    (hf : files₁ = files₂) (hr : root₁ = root₂) :
    handleConvert decode files₁ root₁ = handleConvert decode files₂ root₂ ∧
    (handleConvert decode files₁ root₁).archive =
      (handleConvert decode files₂ root₂).archive := by
  subst hf
  subst hr
  exact ⟨rfl, rfl⟩

/-- Witness for C8 at a concrete input. -/
theorem c8_deterministic_witness :
    handleConvert (fun _ => Except.ok [("Sheet1", "a")])
        [⟨"r.xlsx", "A/r.xlsx", [0]⟩] "out" =
      handleConvert (fun _ => Except.ok [("Sheet1", "a")])
        [⟨"r.xlsx", "A/r.xlsx", [0]⟩] "out" ∧
    (handleConvert (fun _ => Except.ok [("Sheet1", "a")])
        [⟨"r.xlsx", "A/r.xlsx", [0]⟩] "out").archive =
      (handleConvert (fun _ => Except.ok [("Sheet1", "a")])
        [⟨"r.xlsx", "A/r.xlsx", [0]⟩] "out").archive :=
  c8_deterministic (fun _ => Except.ok [("Sheet1", "a")]) _ _ _ _ rfl rfl

/-- C9: the serializer quotes a cell's text (wrapping it in double quotes
and doubling internal double quotes) exactly when the text contains a
comma, a double quote, or a line break, and leaves it unquoted otherwise;
in particular `a,b` is emitted as `"a,b"` and `He said "hi"` as
`"He said ""hi"""`. -/
theorem c9_quoting :
    (∀ s : String,
      (needsQuote s = true →
        quoteField s = "\"" ++ escapeQuotes s ++ "\"" ∧ quoteField s ≠ s) ∧
      (needsQuote s = false → quoteField s = s)) ∧
    quoteField "a,b" = "\"a,b\"" ∧
    quoteField "He said \"hi\"" = "\"He said \"\"hi\"\"\"" := by
  refine ⟨fun s => ⟨fun h => ⟨by simp [quoteField, h], ?_⟩,
    fun h => by simp [quoteField, h]⟩, by decide, by decide⟩
  intro heq
  rw [quoteField, if_pos h] at heq
  have h2 := congrArg String.data heq
  simp only [String.data_append] at h2
  have hlen := congrArg List.length h2
  simp only [List.length_append, List.length_cons, List.length_nil] at hlen
  have hge := length_le_escapeQuotes s.data
  rw [show (escapeQuotes s).data =
    s.data.flatMap (fun c => if c = '"' then ['"', '"'] else [c]) from rfl] at hlen
  omega

/-- Witness for C9 at a concrete input. -/
theorem c9_quoting_witness :
    needsQuote "x,y" = true ∧
    quoteField "x,y" = "\"" ++ escapeQuotes "x,y" ++ "\"" ∧
    quoteField "x,y" ≠ "x,y" :=
  ⟨by decide, (c9_quoting.1 "x,y").1 (by decide)⟩

/-- C1: a successful run over a single-sheet workbook at relative path
`a/b/(stem).xlsx`, with output root name `root`, produces exactly one
archive entry for that file, at `(trimmed root)/b/(stem).csv`: the first
segment is replaced by the trimmed root name, the middle segment is kept,
and the leaf's extension becomes `.csv`. -/
theorem c1_single_sheet_entry (decode : List Nat → Except String Workbook)
    (f : RawFile) (root a b stem sn csv : String)
    (hdec : decode f.bytes = Except.ok [(sn, csv)])
    (hsplit : jsSplit '/' f.relativePath = [a, b, stem ++ ".xlsx"])
    (hroot : jsTrim root ≠ "") :
    handleConvert decode [f] root =
      ⟨.success, [100],
        [(jsTrim root ++ "/" ++ b ++ "/" ++ stem ++ ".csv", csv)],
        some [(jsTrim root ++ "/" ++ b ++ "/" ++ stem ++ ".csv", csv)],
        true, 1⟩ := by
  have hok : ∀ g ∈ [f], ∃ w, decode g.bytes = Except.ok w := by
    intro g hg
    rw [List.mem_singleton] at hg
    subst hg
    exact ⟨_, hdec⟩
  have hloop := runLoop_all_ok decode (jsTrim root) ([f].length) [f] 0 hok
  have herr : (runLoop decode (jsTrim root) ([f].length) [f] 0).err = none := by
    rw [hloop]
  have hbase : newPathBase (jsTrim root) f.relativePath =
      (jsTrim root ++ "/" ++ b ++ "/" ++ stem) ++ ".xlsx" := by
    rw [newPathBase, hsplit]
    simp [joinSep, strAppend_assoc]
  have hent : entriesOf decode (jsTrim root) [f] =
      [(jsTrim root ++ "/" ++ b ++ "/" ++ stem ++ ".csv", csv)] := by
    simp only [entriesOf, hdec, List.append_nil]
    rw [fileEntries_single, hbase, replaceExtension_append_xlsx _ _ (by decide)]
  rw [handleConvert_loop_ok decode [f] root (by simp) hroot herr, hloop, hent]
  simp only [List.length_singleton, show List.range 1 = [0] from rfl,
    List.map_cons, List.map_nil, Nat.add_zero, Nat.zero_add,
    roundPct_total 1 (by omega)]

/-- Witness for C1 at a concrete input: single-sheet `A/B/report.xlsx`
with root `out`. -/
theorem c1_single_sheet_entry_witness :
    jsSplit '/' "A/B/report.xlsx" = ["A", "B", "report" ++ ".xlsx"] ∧
    jsTrim "out" ≠ "" ∧
    handleConvert (fun _ => Except.ok [("Sheet1", "r1")])
        [⟨"report.xlsx", "A/B/report.xlsx", [0]⟩] "out" =
      ⟨.success, [100],
        [(jsTrim "out" ++ "/" ++ "B" ++ "/" ++ "report" ++ ".csv", "r1")],
        some [(jsTrim "out" ++ "/" ++ "B" ++ "/" ++ "report" ++ ".csv", "r1")],
        true, 1⟩ :=
  ⟨by decide, by decide,
    c1_single_sheet_entry (fun _ => Except.ok [("Sheet1", "r1")])
      ⟨"report.xlsx", "A/B/report.xlsx", [0]⟩ "out" "A" "B" "report" "Sheet1" "r1"
      rfl (by decide) (by decide)⟩

/-- Counterexample for C2 as stated: JS `replace` substitutes `$`-patterns
in the string replacement of line 84, so a sheet named `$&` in a two-sheet
workbook at `A/data.xlsx` produces the entry path `out/data_.xlsx.csv`
(the matched `.xlsx` substituted for `$&`), and no entry exists at the
claimed path `out/data_$&.csv`. -/
theorem c2_counterexample :
    (handleConvert (fun _ => Except.ok [("$&", "x"), ("Sheet2", "y")])
        [⟨"data.xlsx", "A/data.xlsx", [0]⟩] "out").status = RunStatus.success ∧
    (handleConvert (fun _ => Except.ok [("$&", "x"), ("Sheet2", "y")])
        [⟨"data.xlsx", "A/data.xlsx", [0]⟩] "out").entries.map Prod.fst =
      ["out/data_.xlsx.csv", "out/data_Sheet2.csv"] ∧
    "out/data_$&.csv" ∉
      (handleConvert (fun _ => Except.ok [("$&", "x"), ("Sheet2", "y")])
        [⟨"data.xlsx", "A/data.xlsx", [0]⟩] "out").entries.map Prod.fst := by
  decide

/-- C2 (amended): a successful run over a multi-sheet workbook at relative
path `a/(stem).xlsx` with output root `root`, whose sheet names contain no
dollar sign, produces exactly one archive entry per sheet, each at the
rewritten path whose leaf extension is replaced by `_<sheetName>.csv`, and
no entry at the plain `.csv` path.  (Sheet names with `$`-sequences
undergo JS `$`-pattern substitution instead, see `c2_counterexample`.) -/
theorem c2_multi_sheet_entries (decode : List Nat → Except String Workbook)
    (f : RawFile) (root a stem : String) (wb : Workbook)
    (hdec : decode f.bytes = Except.ok wb)
    (hlen : 2 ≤ wb.length)
    (hdollar : ∀ p ∈ wb, dollarFree p.1.data = true)
    (hsplit : jsSplit '/' f.relativePath = [a, stem ++ ".xlsx"])
    (hroot : jsTrim root ≠ "") :
    handleConvert decode [f] root =
      ⟨.success, [100],
        wb.map (fun p => (jsTrim root ++ "/" ++ stem ++ "_" ++ p.1 ++ ".csv", p.2)),
        some (wb.map (fun p =>
          (jsTrim root ++ "/" ++ stem ++ "_" ++ p.1 ++ ".csv", p.2))),
        true, 1⟩ ∧
    (jsTrim root ++ "/" ++ stem ++ ".csv") ∉
      (wb.map (fun p =>
        (jsTrim root ++ "/" ++ stem ++ "_" ++ p.1 ++ ".csv", p.2))).map Prod.fst := by
  have hok : ∀ g ∈ [f], ∃ w, decode g.bytes = Except.ok w := by
    intro g hg
    rw [List.mem_singleton] at hg
    subst hg
    exact ⟨_, hdec⟩
  have hloop := runLoop_all_ok decode (jsTrim root) ([f].length) [f] 0 hok
  have herr : (runLoop decode (jsTrim root) ([f].length) [f] 0).err = none := by
    rw [hloop]
  have hbase : newPathBase (jsTrim root) f.relativePath =
      (jsTrim root ++ "/" ++ stem) ++ ".xlsx" := by
    rw [newPathBase, hsplit]
    simp [joinSep, strAppend_assoc]
  have hent : entriesOf decode (jsTrim root) [f] =
      wb.map (fun p => (jsTrim root ++ "/" ++ stem ++ "_" ++ p.1 ++ ".csv", p.2)) := by
    simp only [entriesOf, hdec, List.append_nil]
    rw [fileEntries_multi _ _ wb (by omega), hbase]
    apply List.map_congr_left
    intro p hp
    have hdf : dollarFree ("_" ++ p.1 ++ ".csv").data = true := by
      simp only [String.data_append, dollarFree_append, Bool.and_eq_true]
      exact ⟨⟨by decide, hdollar p hp⟩, by decide⟩
    rw [replaceExtension_append_xlsx _ _ hdf]
    simp [strAppend_assoc]
  constructor
  · rw [handleConvert_loop_ok decode [f] root (by simp) hroot herr, hloop, hent]
    simp only [List.length_singleton, show List.range 1 = [0] from rfl,
      List.map_cons, List.map_nil, Nat.add_zero, Nat.zero_add,
      roundPct_total 1 (by omega)]
  · intro hmem
    simp only [List.map_map, List.mem_map, Function.comp_apply] at hmem
    obtain ⟨p, hp, heq⟩ := hmem
    have h2 := congrArg String.data heq
    simp only [String.data_append, List.append_assoc, List.append_cancel_left_eq,
      List.cons_append, List.nil_append, List.cons.injEq, true_and] at h2
    exact absurd h2.1 (by decide)

/-- Witness for C2 at a concrete input: two-sheet `A/data.xlsx` with root
`out`. -/
theorem c2_multi_sheet_entries_witness :
    jsSplit '/' "A/data.xlsx" = ["A", "data" ++ ".xlsx"] ∧
    2 ≤ ([("Sheet1", "c1"), ("Sheet2", "c2")] : Workbook).length ∧
    (∀ p ∈ ([("Sheet1", "c1"), ("Sheet2", "c2")] : Workbook),
      dollarFree p.1.data = true) ∧
    jsTrim "out" ≠ "" ∧
    (handleConvert (fun _ => Except.ok [("Sheet1", "c1"), ("Sheet2", "c2")])
        [⟨"data.xlsx", "A/data.xlsx", [0]⟩] "out" =
      ⟨.success, [100],
        ([("Sheet1", "c1"), ("Sheet2", "c2")] : Workbook).map
          (fun p => (jsTrim "out" ++ "/" ++ "data" ++ "_" ++ p.1 ++ ".csv", p.2)),
        some (([("Sheet1", "c1"), ("Sheet2", "c2")] : Workbook).map
          (fun p => (jsTrim "out" ++ "/" ++ "data" ++ "_" ++ p.1 ++ ".csv", p.2))),
        true, 1⟩ ∧
    (jsTrim "out" ++ "/" ++ "data" ++ ".csv") ∉
      (([("Sheet1", "c1"), ("Sheet2", "c2")] : Workbook).map
        (fun p =>
          (jsTrim "out" ++ "/" ++ "data" ++ "_" ++ p.1 ++ ".csv", p.2))).map
        Prod.fst) :=
  ⟨by decide, by decide, by decide, by decide,
    c2_multi_sheet_entries (fun _ => Except.ok [("Sheet1", "c1"), ("Sheet2", "c2")])
      ⟨"data.xlsx", "A/data.xlsx", [0]⟩ "out" "A" "data"
      [("Sheet1", "c1"), ("Sheet2", "c2")] rfl (by decide) (by decide) (by decide)
      (by decide)⟩

/-- C3: if some file fails to decode, the run ends in the run-error state
(message from the failure, or the generic fallback), no archive is
finalized and no download is triggered, the files after the failing one
are never handed to the decoder, and the emitted progress stops with the
values of the files before the failure. -/
theorem c3_failfast (decode : List Nat → Except String Workbook)
    (pre : List RawFile) (bad : RawFile) (post : List RawFile)
    (root e : String)
    (hpre : ∀ f ∈ pre, ∃ w, decode f.bytes = Except.ok w)
    (hbad : decode bad.bytes = Except.error e)
    (hroot : jsTrim root ≠ "") :
    (handleConvert decode (pre ++ bad :: post) root).status =
      RunStatus.runError
        (if e = "" then "An error occurred during conversion." else e) ∧
    (handleConvert decode (pre ++ bad :: post) root).archive = none ∧
    (handleConvert decode (pre ++ bad :: post) root).downloaded = false ∧
    (handleConvert decode (pre ++ bad :: post) root).decodeAttempts =
      pre.length + 1 ∧
    (handleConvert decode (pre ++ bad :: post) root).progressEvents =
      (List.range pre.length).map
        (fun j => roundPct (1 + j) (pre ++ bad :: post).length) := by
  have hne : pre ++ bad :: post ≠ [] := by simp
  have hloop := runLoop_first_err decode (jsTrim root)
    (pre ++ bad :: post).length pre bad post 0 e hpre hbad
  have herr : (runLoop decode (jsTrim root) (pre ++ bad :: post).length
      (pre ++ bad :: post) 0).err = some e := by
    rw [hloop]
  rw [handleConvert_loop_err decode (pre ++ bad :: post) root e hne hroot herr,
    hloop]
  exact ⟨rfl, rfl, rfl, rfl, rfl⟩

/-- Witness for C3 at a concrete input: file 2 of 3 fails to decode. -/
theorem c3_failfast_witness :
    (handleConvert
        (fun b => if b = [1] then Except.error "bad zip" else Except.ok [("S", "x")])
        ([⟨"a.xlsx", "A/a.xlsx", [0]⟩] ++ ⟨"b.xlsx", "A/b.xlsx", [1]⟩ ::
          [⟨"c.xlsx", "A/c.xlsx", [2]⟩]) "out").status =
      RunStatus.runError
        (if "bad zip" = "" then "An error occurred during conversion."
          else "bad zip") ∧
    (handleConvert
        (fun b => if b = [1] then Except.error "bad zip" else Except.ok [("S", "x")])
        ([⟨"a.xlsx", "A/a.xlsx", [0]⟩] ++ ⟨"b.xlsx", "A/b.xlsx", [1]⟩ ::
          [⟨"c.xlsx", "A/c.xlsx", [2]⟩]) "out").archive = none ∧
    (handleConvert
        (fun b => if b = [1] then Except.error "bad zip" else Except.ok [("S", "x")])
        ([⟨"a.xlsx", "A/a.xlsx", [0]⟩] ++ ⟨"b.xlsx", "A/b.xlsx", [1]⟩ ::
          [⟨"c.xlsx", "A/c.xlsx", [2]⟩]) "out").downloaded = false ∧
    (handleConvert
        (fun b => if b = [1] then Except.error "bad zip" else Except.ok [("S", "x")])
        ([⟨"a.xlsx", "A/a.xlsx", [0]⟩] ++ ⟨"b.xlsx", "A/b.xlsx", [1]⟩ ::
          [⟨"c.xlsx", "A/c.xlsx", [2]⟩]) "out").decodeAttempts =
      [(⟨"a.xlsx", "A/a.xlsx", [0]⟩ : RawFile)].length + 1 ∧
    (handleConvert
        (fun b => if b = [1] then Except.error "bad zip" else Except.ok [("S", "x")])
        ([⟨"a.xlsx", "A/a.xlsx", [0]⟩] ++ ⟨"b.xlsx", "A/b.xlsx", [1]⟩ ::
          [⟨"c.xlsx", "A/c.xlsx", [2]⟩]) "out").progressEvents =
      (List.range [(⟨"a.xlsx", "A/a.xlsx", [0]⟩ : RawFile)].length).map
        (fun j => roundPct (1 + j)
          ([⟨"a.xlsx", "A/a.xlsx", [0]⟩] ++ ⟨"b.xlsx", "A/b.xlsx", [1]⟩ ::
            [⟨"c.xlsx", "A/c.xlsx", [2]⟩] : List RawFile).length) :=
  c3_failfast
    (fun b => if b = [1] then Except.error "bad zip" else Except.ok [("S", "x")])
    [⟨"a.xlsx", "A/a.xlsx", [0]⟩] ⟨"b.xlsx", "A/b.xlsx", [1]⟩
    [⟨"c.xlsx", "A/c.xlsx", [2]⟩] "out" "bad zip"
    (by
      intro f hf
      rw [List.mem_singleton] at hf
      subst hf
      exact ⟨[("S", "x")], rfl⟩)
    rfl (by decide)

/-- C4 (amended): a successful run over a non-empty file list with a
non-blank root emits one progress value per file — `Math.round` of the
binary64 evaluation of `(completed/total)*100` (`roundPct`) for the
completed count; the sequence is non-decreasing, ends at exactly 100, and
starts at `roundPct 1 total` (which is 0 for 201 files, see
`c4_counterexample`, and can differ by one from exact rounding of
`100·completed/total`, e.g. 57 instead of 58 after file 23 of 40). -/
theorem c4_progress (decode : List Nat → Except String Workbook)
    (files : List RawFile) (root : String)
    (hne : files ≠ []) (hroot : jsTrim root ≠ "")
    (hok : ∀ f ∈ files, ∃ w, decode f.bytes = Except.ok w) :
    (handleConvert decode files root).status = RunStatus.success ∧
    (handleConvert decode files root).progressEvents =
      (List.range files.length).map (fun j => roundPct (1 + j) files.length) ∧
    List.Pairwise (· ≤ ·) (handleConvert decode files root).progressEvents ∧
    (handleConvert decode files root).progressEvents.getLast? = some 100 ∧
    (handleConvert decode files root).progressEvents.head? =
      some (roundPct 1 files.length) := by
  have hloop := runLoop_all_ok decode (jsTrim root) files.length files 0 hok
  have herr : (runLoop decode (jsTrim root) files.length files 0).err = none := by
    rw [hloop]
  have hpos : 0 < files.length := List.length_pos.2 hne
  rw [handleConvert_loop_ok decode files root hne hroot herr, hloop]
  obtain ⟨m, hm⟩ : ∃ m, files.length = m + 1 :=
    ⟨files.length - 1, by omega⟩
  refine ⟨rfl, rfl, ?_, ?_, ?_⟩
  · show List.Pairwise (· ≤ ·)
      ((List.range files.length).map (fun j => roundPct (0 + 1 + j) files.length))
    exact (List.pairwise_lt_range files.length).map _
      (fun a b hab => roundPct_mono _ _ _ (by omega))
  · show ((List.range files.length).map
      (fun j => roundPct (0 + 1 + j) files.length)).getLast? = some 100
    rw [hm, List.range_succ, List.map_append, List.map_cons, List.map_nil,
      List.getLast?_concat]
    rw [show 0 + 1 + m = m + 1 from by omega, roundPct_total (m + 1) (by omega)]
  · show ((List.range files.length).map
      (fun j => roundPct (0 + 1 + j) files.length)).head? =
      some (roundPct 1 files.length)
    rw [hm, List.range_succ_eq_map, List.map_cons]
    rfl

/-- Witness for C4 (amended) at a concrete input: three files, all
decoding, root `out`. -/
theorem c4_progress_witness :
    (handleConvert (fun _ => Except.ok [("S", "x")])
        [⟨"a.xlsx", "A/a.xlsx", [0]⟩, ⟨"b.xlsx", "A/b.xlsx", [1]⟩,
          ⟨"c.xlsx", "A/c.xlsx", [2]⟩] "out").status = RunStatus.success ∧
    (handleConvert (fun _ => Except.ok [("S", "x")])
        [⟨"a.xlsx", "A/a.xlsx", [0]⟩, ⟨"b.xlsx", "A/b.xlsx", [1]⟩,
          ⟨"c.xlsx", "A/c.xlsx", [2]⟩] "out").progressEvents =
      (List.range ([⟨"a.xlsx", "A/a.xlsx", [0]⟩, ⟨"b.xlsx", "A/b.xlsx", [1]⟩,
        ⟨"c.xlsx", "A/c.xlsx", [2]⟩] : List RawFile).length).map
        (fun j => roundPct (1 + j)
          ([⟨"a.xlsx", "A/a.xlsx", [0]⟩, ⟨"b.xlsx", "A/b.xlsx", [1]⟩,
            ⟨"c.xlsx", "A/c.xlsx", [2]⟩] : List RawFile).length) ∧
    List.Pairwise (· ≤ ·)
      (handleConvert (fun _ => Except.ok [("S", "x")])
        [⟨"a.xlsx", "A/a.xlsx", [0]⟩, ⟨"b.xlsx", "A/b.xlsx", [1]⟩,
          ⟨"c.xlsx", "A/c.xlsx", [2]⟩] "out").progressEvents ∧
    (handleConvert (fun _ => Except.ok [("S", "x")])
        [⟨"a.xlsx", "A/a.xlsx", [0]⟩, ⟨"b.xlsx", "A/b.xlsx", [1]⟩,
          ⟨"c.xlsx", "A/c.xlsx", [2]⟩] "out").progressEvents.getLast? =
      some 100 ∧
    (handleConvert (fun _ => Except.ok [("S", "x")])
        [⟨"a.xlsx", "A/a.xlsx", [0]⟩, ⟨"b.xlsx", "A/b.xlsx", [1]⟩,
          ⟨"c.xlsx", "A/c.xlsx", [2]⟩] "out").progressEvents.head? =
      some (roundPct 1 ([⟨"a.xlsx", "A/a.xlsx", [0]⟩, ⟨"b.xlsx", "A/b.xlsx", [1]⟩,
        ⟨"c.xlsx", "A/c.xlsx", [2]⟩] : List RawFile).length) :=
  c4_progress (fun _ => Except.ok [("S", "x")])
    [⟨"a.xlsx", "A/a.xlsx", [0]⟩, ⟨"b.xlsx", "A/b.xlsx", [1]⟩,
      ⟨"c.xlsx", "A/c.xlsx", [2]⟩] "out"
    (by decide) (by decide) (fun f _ => ⟨[("S", "x")], rfl⟩)

set_option maxRecDepth 4000 in
/-- Counterexample for C4 as stated: with 201 files (all decoding, root
non-blank) the run succeeds but the first emitted progress value is 0, not
strictly greater than 0; moreover the program's value after file 23 of 40
is 57, not the exact `round(100×23/40) = round(57.5) = 58` the claim's
formula gives, because the double product `(23/40)*100` is
`57.49999999999999…`. -/
theorem c4_counterexample :
    List.replicate 201 (⟨"a.xlsx", "A/a.xlsx", [0]⟩ : RawFile) ≠ [] ∧
    jsTrim "out" ≠ "" ∧
    (handleConvert (fun _ => Except.ok [("Sheet1", "")])
      (List.replicate 201 ⟨"a.xlsx", "A/a.xlsx", [0]⟩) "out").status =
        RunStatus.success ∧
    (handleConvert (fun _ => Except.ok [("Sheet1", "")])
      (List.replicate 201 ⟨"a.xlsx", "A/a.xlsx", [0]⟩) "out").progressEvents.head? =
        some 0 ∧
    roundPct 23 40 = 57 ∧
    ⌊(100 * 23 : ℚ) / 40 + 1 / 2⌋ = 58 := by
  have hok : ∀ f ∈ List.replicate 201 (⟨"a.xlsx", "A/a.xlsx", [0]⟩ : RawFile),
      ∃ w, (fun _ : List Nat => Except.ok (ε := String) [("Sheet1", "")]) f.bytes =
        Except.ok w :=
    fun f _ => ⟨[("Sheet1", "")], rfl⟩
  have hloop := runLoop_all_ok (fun _ => Except.ok [("Sheet1", "")]) (jsTrim "out")
    (List.replicate 201 (⟨"a.xlsx", "A/a.xlsx", [0]⟩ : RawFile)).length
    (List.replicate 201 ⟨"a.xlsx", "A/a.xlsx", [0]⟩) 0 hok
  have herr : (runLoop (fun _ => Except.ok [("Sheet1", "")]) (jsTrim "out")
      (List.replicate 201 (⟨"a.xlsx", "A/a.xlsx", [0]⟩ : RawFile)).length
      (List.replicate 201 ⟨"a.xlsx", "A/a.xlsx", [0]⟩) 0).err = none := by
    rw [hloop]
  refine ⟨by simp, by decide, ?_, ?_, roundPct_23_40, ?_⟩
  · rw [handleConvert_loop_ok _ _ _ (by simp) (by decide) herr]
  · rw [handleConvert_loop_ok _ _ _ (by simp) (by decide) herr, hloop]
    simp only [List.length_replicate, List.range_succ_eq_map, List.map_cons,
      List.head?_cons]
    rw [show (0 + 1 + 0 : ℕ) = 1 from rfl, roundPct_one_201]
  · rw [Int.floor_eq_iff]
    constructor <;> norm_num

/-- Counterexample for C7 as stated: two distinct filter-accepted files,
`A/data.xlsx` and `A/data.xls` (both single-sheet), are both rewritten to
`out/data.csv`, so the run hands the Archive Builder a repeated path. -/
theorem c7_counterexample :
    (∀ f ∈ ([⟨"data.xlsx", "A/data.xlsx", [0]⟩,
        ⟨"data.xls", "A/data.xls", [1]⟩] : List RawFile),
      isExcelName f.name = true) ∧
    (handleConvert
        (fun b => if b = [0] then Except.ok [("Sheet1", "x")]
          else Except.ok [("Sheet1", "y")])
        [⟨"data.xlsx", "A/data.xlsx", [0]⟩, ⟨"data.xls", "A/data.xls", [1]⟩]
        "out").status = RunStatus.success ∧
    (handleConvert
        (fun b => if b = [0] then Except.ok [("Sheet1", "x")]
          else Except.ok [("Sheet1", "y")])
        [⟨"data.xlsx", "A/data.xlsx", [0]⟩, ⟨"data.xls", "A/data.xls", [1]⟩]
        "out").entries.map Prod.fst = ["out/data.csv", "out/data.csv"] ∧
    ¬ ((handleConvert
        (fun b => if b = [0] then Except.ok [("Sheet1", "x")]
          else Except.ok [("Sheet1", "y")])
        [⟨"data.xlsx", "A/data.xlsx", [0]⟩, ⟨"data.xls", "A/data.xls", [1]⟩]
        "out").entries.map Prod.fst).Nodup := by
  decide

/-- C7 (amended): the entries produced from any single input file have
pairwise distinct paths provided the workbook's (unique) sheet names
contain no dollar sign and the rewritten base path carries an extension
(true whenever the leaf does, e.g. for any filter-accepted file name);
paths can collide across different input files of the same run
(`c7_counterexample`), and `$`-pattern substitution can merge even one
file's sheet leaves (sheets `$` and `$$` both yield `_$.csv`). -/
theorem c7_per_file_unique (root path : String) (wb : Workbook)
    (hnodup : (wb.map Prod.fst).Nodup)
    (hdollar : ∀ p ∈ wb, dollarFree p.1.data = true)
    (hext : hasExtension (newPathBase root path) = true) :
    ((fileEntries root path wb).map Prod.fst).Nodup := by
  rcases wb with _ | ⟨x, _ | ⟨y, rest⟩⟩
  · simp [fileEntries_nil]
  · rcases x with ⟨sn, csv⟩
    rw [fileEntries_single]
    simp
  · have hdf : ∀ s ∈ (x :: y :: rest).map Prod.fst,
        dollarFree ("_" ++ s ++ ".csv").data = true := by
      intro s hs
      obtain ⟨p, hp, hps⟩ := List.mem_map.1 hs
      subst hps
      simp only [String.data_append, dollarFree_append, Bool.and_eq_true]
      exact ⟨⟨by decide, hdollar p hp⟩, by decide⟩
    rw [fileEntries_multi _ _ _ (by simp), List.map_map]
    rw [show (Prod.fst ∘ fun p : String × String =>
        (replaceExtension (newPathBase root path) ("_" ++ p.1 ++ ".csv"), p.2)) =
      ((fun sn => replaceExtension (newPathBase root path) ("_" ++ sn ++ ".csv")) ∘
        Prod.fst) from rfl, ← List.map_map]
    apply List.Nodup.map_on _ hnodup
    intro s₁ hs₁ s₂ hs₂ h12
    have h2 := replaceExtension_inj (newPathBase root path) hext _ _
      (hdf s₁ hs₁) (hdf s₂ hs₂) h12
    have h3 := congrArg String.data h2
    simp only [String.data_append, List.append_assoc, List.cons_append,
      List.nil_append, List.cons.injEq, true_and] at h3
    exact String.ext (List.append_cancel_right h3)

/-- Witness for C7 (amended) at a concrete input: two-sheet
`A/data.xlsx`. -/
theorem c7_per_file_unique_witness :
    (([("Sheet1", "x"), ("Sheet2", "y")] : Workbook).map Prod.fst).Nodup ∧
    (∀ p ∈ ([("Sheet1", "x"), ("Sheet2", "y")] : Workbook),
      dollarFree p.1.data = true) ∧
    hasExtension (newPathBase "out" "A/data.xlsx") = true ∧
    ((fileEntries "out" "A/data.xlsx"
      [("Sheet1", "x"), ("Sheet2", "y")]).map Prod.fst).Nodup :=
  ⟨by decide, by decide, by decide,
    c7_per_file_unique "out" "A/data.xlsx" [("Sheet1", "x"), ("Sheet2", "y")]
      (by decide) (by decide) (by decide)⟩

/-- C10: a file that decodes to a zero-sheet workbook does not fail the
run: it contributes no archive entries (deleting it from the list leaves
the entry sequence unchanged), yet the completed count and progress still
advance for it, and the run still ends in success with the archive
finalized and downloaded. -/
theorem c10_zero_sheet_file (decode : List Nat → Except String Workbook)
    (pre : List RawFile) (f₀ : RawFile) (post : List RawFile) (root : String)
    (hpre : ∀ f ∈ pre, ∃ w, decode f.bytes = Except.ok w)
    (h₀ : decode f₀.bytes = Except.ok ([] : Workbook))
    (hpost : ∀ f ∈ post, ∃ w, decode f.bytes = Except.ok w)
    (hroot : jsTrim root ≠ "") :
    (handleConvert decode (pre ++ f₀ :: post) root).status = RunStatus.success ∧
    (handleConvert decode (pre ++ f₀ :: post) root).downloaded = true ∧
    (handleConvert decode (pre ++ f₀ :: post) root).entries =
      entriesOf decode (jsTrim root) pre ++ entriesOf decode (jsTrim root) post ∧
    (handleConvert decode (pre ++ f₀ :: post) root).archive =
      some ((handleConvert decode (pre ++ f₀ :: post) root).entries) ∧
    (handleConvert decode (pre ++ f₀ :: post) root).progressEvents.length =
      pre.length + 1 + post.length ∧
    (handleConvert decode (pre ++ f₀ :: post) root).decodeAttempts =
      pre.length + 1 + post.length := by
  have hall : ∀ f ∈ pre ++ f₀ :: post, ∃ w, decode f.bytes = Except.ok w := by
    intro f hf
    rcases List.mem_append.1 hf with h | h
    · exact hpre f h
    · rcases List.mem_cons.1 h with h | h
      · subst h
        exact ⟨_, h₀⟩
      · exact hpost f h
  have hloop := runLoop_all_ok decode (jsTrim root)
    (pre ++ f₀ :: post).length (pre ++ f₀ :: post) 0 hall
  have herr : (runLoop decode (jsTrim root) (pre ++ f₀ :: post).length
      (pre ++ f₀ :: post) 0).err = none := by
    rw [hloop]
  rw [handleConvert_loop_ok decode (pre ++ f₀ :: post) root (by simp) hroot herr,
    hloop]
  refine ⟨rfl, rfl, ?_, rfl, ?_, ?_⟩
  · show entriesOf decode (jsTrim root) (pre ++ f₀ :: post) = _
    rw [entriesOf_append]
    congr 1
    show entriesOf decode (jsTrim root) (f₀ :: post) = _
    rw [show entriesOf decode (jsTrim root) (f₀ :: post) =
      (match decode f₀.bytes with
        | .ok wb => fileEntries (jsTrim root) f₀.relativePath wb
        | .error _ => []) ++ entriesOf decode (jsTrim root) post from rfl, h₀]
    rfl
  · show ((List.range (pre ++ f₀ :: post).length).map
      (fun j => roundPct (0 + 1 + j) (pre ++ f₀ :: post).length)).length = _
    simp only [List.length_map, List.length_range, List.length_append,
      List.length_cons]
    omega
  · show (pre ++ f₀ :: post).length = pre.length + 1 + post.length
    simp only [List.length_append, List.length_cons]
    omega

/-- Witness for C10 at a concrete input: a single zero-sheet file. -/
theorem c10_zero_sheet_file_witness :
    (handleConvert (fun _ => Except.ok []) ([] ++ ⟨"e.xlsx", "A/e.xlsx", [0]⟩ :: [])
      "out").status = RunStatus.success ∧
    (handleConvert (fun _ => Except.ok []) ([] ++ ⟨"e.xlsx", "A/e.xlsx", [0]⟩ :: [])
      "out").downloaded = true ∧
    (handleConvert (fun _ => Except.ok []) ([] ++ ⟨"e.xlsx", "A/e.xlsx", [0]⟩ :: [])
      "out").entries =
      entriesOf (fun _ => Except.ok []) (jsTrim "out") [] ++
        entriesOf (fun _ => Except.ok []) (jsTrim "out") [] ∧
    (handleConvert (fun _ => Except.ok []) ([] ++ ⟨"e.xlsx", "A/e.xlsx", [0]⟩ :: [])
      "out").archive =
      some ((handleConvert (fun _ => Except.ok [])
        ([] ++ ⟨"e.xlsx", "A/e.xlsx", [0]⟩ :: []) "out").entries) ∧
    (handleConvert (fun _ => Except.ok []) ([] ++ ⟨"e.xlsx", "A/e.xlsx", [0]⟩ :: [])
      "out").progressEvents.length =
      ([] : List RawFile).length + 1 + ([] : List RawFile).length ∧
    (handleConvert (fun _ => Except.ok []) ([] ++ ⟨"e.xlsx", "A/e.xlsx", [0]⟩ :: [])
      "out").decodeAttempts =
      ([] : List RawFile).length + 1 + ([] : List RawFile).length :=
  c10_zero_sheet_file (fun _ => Except.ok []) [] ⟨"e.xlsx", "A/e.xlsx", [0]⟩ []
    "out" (fun f hf => absurd hf (List.not_mem_nil f)) rfl
    (fun f hf => absurd hf (List.not_mem_nil f)) (by decide)
